import Mathlib

/-!
Verification development for the schedule-builder core of the
EECS-581 Team 29 project (a course-schedule assembly web app).

The embedded code is the schedule-consistency engine:

* `src/project/bldr/src/lib/timeUtils.ts` — `timeToDecimal`,
  `calculateDuration`, `mapDayAbbreviation`, `parseDays` (the client-side,
  greedy `Tu`/`Th`/`Sa` scheme);
* `src/project/bldr/src/app/api/addClass/route.ts` — the server-side
  `parseDays` (fixed single-letter `M,T,W,R,F,S,U` scheme);
* `src/project/bldr/src/contexts/ScheduleBuilderContext.tsx` —
  `checkTimeConflict`, `addClassToDraft`, `removeClassFromDraft`,
  `clearDraft`, `loadExistingScheduleIntoDraft`.

The source is TypeScript running on a JavaScript engine, so the embedding
models the relevant JavaScript host semantics explicitly:

* a JavaScript number that may be `NaN` is modelled as `Option ℚ`
  (`none` = `NaN`; every comparison with `NaN` is false);
* a computation that may throw (`TypeError` on a property access of
  `undefined`) is modelled with `Except Unit`;
* `String.prototype.split(sep)`, `trim()`, `toUpperCase()` and `Number()`
  are modelled as `jsSplit`, `jsTrim`, `Char.toUpper`-mapping and
  `jsNumber` over `List Char`.

Sections and draft-store state are records; descriptive attributes that
the engine never reads (instructor, room, seats, credit hours, title) are
omitted from the record.
-/

deriving instance DecidableEq for Except

set_option maxRecDepth 100000

/-! ## JavaScript string / number host primitives -/

/-- Model of `String.prototype.split(sep)` for a single-character
separator: splits at every occurrence, keeping empty pieces, and yields
`[""]` on the empty string. -/
def jsSplit (sep : Char) : List Char → List (List Char)
  | [] => [[]]
  | c :: rest =>
    if c = sep then [] :: jsSplit sep rest
    else
      match jsSplit sep rest with
      | [] => [[c]]
      | first :: others => (c :: first) :: others

/-- Whitespace recognized by `String.prototype.trim`. -/
def jsIsWs (c : Char) : Bool :=
  c = ' ' || c = '\t' || c = '\n' || c = '\r'

/-- Model of `String.prototype.trim`: drop leading and trailing
whitespace. -/
def jsTrim (l : List Char) : List Char :=
  ((l.dropWhile jsIsWs).reverse.dropWhile jsIsWs).reverse

/-- Does `pat` occur at the start of `l`? -/
def listLeads : List Char → List Char → Bool
  | [], _ => true
  | _ :: _, [] => false
  | p :: ps, c :: cs => p == c && listLeads ps cs

/-- Does `pat` occur as a contiguous run anywhere in `l`?  Used to model
the regular-expression membership test `/AM|PM/i.test(s)`. -/
def containsSub (pat : List Char) : List Char → Bool
  | [] => pat.isEmpty
  | c :: rest => listLeads pat (c :: rest) || containsSub pat rest

/-- The ten decimal digit characters. -/
def digitChars : List Char := ['0', '1', '2', '3', '4', '5', '6', '7', '8', '9']

/-- Numeric value of a decimal digit string (most significant first). -/
def digitsToNat (l : List Char) : Nat :=
  l.foldl (fun n c => n * 10 + (c.toNat - '0'.toNat)) 0

/-- Model of the JavaScript `Number(string)` conversion on the string
fragments that reach it here: surrounding whitespace is ignored, the
empty string converts to `0`, a decimal digit string converts to its
value, and anything else converts to `NaN` (`none`). -/
def jsNumber (l : List Char) : Option ℚ :=
  let t := jsTrim l
  if t.isEmpty then some 0
  else if t.all (fun c => c ∈ digitChars) then some ((digitsToNat t : ℚ))
  else none

/-- JavaScript `<` on numbers that may be `NaN`: any comparison with
`NaN` is false. -/
def jsLt (a b : Option ℚ) : Bool :=
  match a, b with
  | some x, some y => decide (x < y)
  | _, _ => false

/-- JavaScript addition where either operand may be `NaN`. -/
def jsAdd (a b : Option ℚ) : Option ℚ :=
  match a, b with
  | some x, some y => some (x + y)
  | _, _ => none

/-- JavaScript subtraction where either operand may be `NaN`. -/
def jsSub (a b : Option ℚ) : Option ℚ :=
  match a, b with
  | some x, some y => some (x - y)
  | _, _ => none

/-- Model of `x.toFixed(2)` followed by `parseFloat`: round to the
nearest hundredth (ties toward positive infinity, as the `toFixed`
specification picks the larger candidate); `NaN` stays `NaN`. -/
def jsToFixed2 : Option ℚ → Option ℚ
  | none => none
  | some q => some ((Rat.floor (q * 100 + 1 / 2) : ℚ) / 100)

namespace TimeUtils

/-- Does the string match `/AM|PM/i`? -/
def hasMeridiem (l : List Char) : Bool :=
  containsSub ['A', 'M'] (l.map Char.toUpper) ||
    containsSub ['P', 'M'] (l.map Char.toUpper)

/-- The destructuring `let [hours, minutes] = parts` followed by
`(minutes || 0)`: a missing (`undefined`) second component, `NaN`, and
`0` all collapse to `0`. -/
def minutesOrZero (parts : List (Option ℚ)) : ℚ :=
  match parts.get? 1 with
  | none => 0
  | some none => 0
  | some (some q) => q

/-- The value `hours + (minutes || 0) / 60` where `hours` may be `NaN`. -/
def hoursPlusMinutes (hours : Option ℚ) (minutes : ℚ) : Option ℚ :=
  match hours with
  | none => none
  | some h => some (h + minutes / 60)

/-- `timeToDecimal` from `timeUtils.ts`, on the character list of its
argument.  Empty input returns `0`.  Without an `AM`/`PM` marker the
string is split on `:` and read as 24-hour `hours + minutes/60`.  With a
marker, the string is trimmed and split on a space; if there is no second
space-separated piece the source evaluates `meridian.toUpperCase()` on
`undefined` and throws a `TypeError`, modelled as `.error ()`.  Otherwise
`PM` with hours ≠ 12 adds 12 and `AM` with hours = 12 becomes 0. -/
def timeToDecimalAux (l : List Char) : Except Unit (Option ℚ) :=
  if l.isEmpty then .ok (some 0)
  else if !hasMeridiem l then
    let parts := (jsSplit ':' l).map jsNumber
    .ok (hoursPlusMinutes (parts.headD none) (minutesOrZero parts))
  else
    let pieces := jsSplit ' ' (jsTrim l)
    match pieces.get? 1 with
    | none => .error ()
    | some meridian =>
      let time := pieces.headD []
      let parts := (jsSplit ':' time).map jsNumber
      let hours := parts.headD none
      let hours :=
        if meridian.map Char.toUpper = ['P', 'M'] && !(hours = some 12) then
          jsAdd hours (some 12)
        else hours
      let hours :=
        if meridian.map Char.toUpper = ['A', 'M'] && hours = some 12 then
          some 0
        else hours
      .ok (hoursPlusMinutes hours (minutesOrZero parts))

/-- `timeToDecimal(timeStr)`: wrapper taking the string argument. -/
def timeToDecimal (timeStr : String) : Except Unit (Option ℚ) :=
  timeToDecimalAux timeStr.toList

/-- `calculateDuration(startTime, endTime)`: the `try`/`catch` turns a
thrown `TypeError` into the default `1`; otherwise the result is
`parseFloat((end - start).toFixed(2))`, which propagates `NaN`. -/
def calculateDuration (startTime endTime : String) : Option ℚ :=
  match timeToDecimal startTime with
  | .error _ => some 1
  | .ok start =>
    match timeToDecimal endTime with
    | .error _ => some 1
    | .ok stop => jsToFixed2 (jsSub stop start)

/-- `mapDayAbbreviation` from the client-side `timeUtils.ts`: the
two-letter-disambiguation map (`Tu`, `Th`, `Sa`); unknown abbreviations
are returned unchanged. -/
def mapDayAbbreviation (abbr : String) : String :=
  if abbr = "M" then "Monday"
  else if abbr = "Tu" then "Tuesday"
  else if abbr = "W" then "Wednesday"
  else if abbr = "Th" then "Thursday"
  else if abbr = "F" then "Friday"
  else if abbr = "Sa" then "Saturday"
  else if abbr = "U" then "Sunday"
  else abbr

/-- The scanning loop of the client-side `parseDays`: greedy two-letter
match for `Tu`/`Th`/`Sa`, else a single-letter step. -/
def parseDaysGo : List Char → List String
  | [] => []
  | [c] => [mapDayAbbreviation (String.mk [c])]
  | c1 :: c2 :: rest =>
    let two := String.mk [c1, c2]
    if two = "Tu" || two = "Th" || two = "Sa" then
      mapDayAbbreviation two :: parseDaysGo rest
    else
      mapDayAbbreviation (String.mk [c1]) :: parseDaysGo (c2 :: rest)

/-- Client-side `parseDays` from `timeUtils.ts`: empty input gives `[]`;
otherwise the greedy scan, with the final `.filter(Boolean)` dropping
empty strings. -/
def parseDays (daysStr : String) : List String :=
  if daysStr = "" then []
  else (parseDaysGo daysStr.toList).filter (fun s => !(s == ""))

end TimeUtils

namespace AddClassRoute

/-- `DAY_CHARS` from `api/addClass/route.ts` (`R` = Thursday, `U` =
Sunday). -/
def DAY_CHARS : List Char := ['M', 'T', 'W', 'R', 'F', 'S', 'U']

/-- Server-side `parseDays` from `api/addClass/route.ts`: trim,
upper-case, keep the characters in `DAY_CHARS`, as a set. -/
def parseDays (days : String) : Finset Char :=
  ((jsTrim days.toList).map Char.toUpper).filter (fun c => c ∈ DAY_CHARS)
    |>.toFinset

/-- The weekday each `DAY_CHARS` letter stands for, per the route's own
comment (`R = Thursday, U = Sunday`). -/
def dayCharName (c : Char) : String :=
  if c = 'M' then "Monday"
  else if c = 'T' then "Tuesday"
  else if c = 'W' then "Wednesday"
  else if c = 'R' then "Thursday"
  else if c = 'F' then "Friday"
  else if c = 'S' then "Saturday"
  else if c = 'U' then "Sunday"
  else ""

/-- The set of weekday names denoted by the server-side day set. -/
def daySetNames (days : String) : Finset String :=
  (parseDays days).image dayCharName

end AddClassRoute

/-- The set of weekday names denoted by the client-side `parseDays`. -/
def clientDaySetNames (days : String) : Finset String :=
  (TimeUtils.parseDays days).toFinset

namespace ScheduleBuilder

/-- A class section, with the fields the schedule-consistency engine
reads (`uuid`, `classID`, `dept`, `code`, `component`, `days`,
`starttime`, `endtime`).  Display-only attributes (title, instructor,
room, seats, credit hours) are omitted. -/
structure Sec where
  uuid : String
  classID : Nat
  dept : String
  code : String
  component : String
  days : String
  starttime : String
  endtime : String
deriving DecidableEq, Repr

/-- Do two sections share department, course code and component — the
"same slot of the same course" test used throughout
`ScheduleBuilderContext.tsx`? -/
abbrev sameTuple (a b : Sec) : Prop :=
  a.dept = b.dept ∧ a.code = b.code ∧ a.component = b.component

/-- The classification `addClassToDraft` reports back to the user (via
toasts in the source). -/
inductive Outcome where
  | Duplicate
  | TimeConflict (conflictingClass : Sec)
  | Replace
  | New
deriving DecidableEq, Repr

/-- The `for (const existing of existingClasses)` loop of
`checkTimeConflict`: skip sections sharing the candidate's
(dept, code, component) tuple; otherwise parse the existing section's
days and times (the time parse may throw), and report the first section
with a common day whose half-open time window overlaps. -/
def checkConflictScan (newClass : Sec) (newDays : List String)
    (newStart newEnd : Option ℚ) : List Sec → Except Unit (Option Sec)
  | [] => .ok none
  | existing :: rest =>
    if sameTuple existing newClass then
      checkConflictScan newClass newDays newStart newEnd rest
    else
      let existingDays := TimeUtils.parseDays existing.days
      match TimeUtils.timeToDecimal existing.starttime with
      | .error e => .error e
      | .ok existingStart =>
        match TimeUtils.timeToDecimal existing.endtime with
        | .error e => .error e
        | .ok existingEnd =>
          if newDays.any (fun day => existingDays.contains day) then
            if jsLt newStart existingEnd && jsLt existingStart newEnd then
              .ok (some existing)
            else
              checkConflictScan newClass newDays newStart newEnd rest
          else
            checkConflictScan newClass newDays newStart newEnd rest

/-- `checkTimeConflict(newClass, existingClasses)` from
`ScheduleBuilderContext.tsx`: parse the candidate's days and times, then
scan the existing sections in list order.  `.ok (some z)` models
`{conflict: true, conflictingClass: z}`, `.ok none` models
`{conflict: false}`, and `.error ()` models a thrown `TypeError` from
`timeToDecimal`. -/
def checkTimeConflict (newClass : Sec) (existingClasses : List Sec) :
    Except Unit (Option Sec) :=
  let newDays := TimeUtils.parseDays newClass.days
  match TimeUtils.timeToDecimal newClass.starttime with
  | .error e => .error e
  | .ok newStart =>
    match TimeUtils.timeToDecimal newClass.endtime with
    | .error e => .error e
    | .ok newEnd => checkConflictScan newClass newDays newStart newEnd existingClasses

/-- `addClassToDraft(classItem)` acting on the draft list, returning the
reported outcome and the next draft.  (The "create an Untitled schedule"
block at the top of the source is persistence-layer network glue that
never touches the draft list and is not modelled.)  In source order: the
`uuid` duplicate check returns first; `sameComponentExists` is computed;
`checkTimeConflict` runs (and may throw); a conflict returns with the
draft unchanged; otherwise a same-tuple match replaces every matching
entry in place, and failing that the candidate is appended. -/
def addClassToDraft (classItem : Sec) (draftSchedule : List Sec) :
    Except Unit (Outcome × List Sec) :=
  if draftSchedule.any (fun item => decide (item.uuid = classItem.uuid)) then
    .ok (.Duplicate, draftSchedule)
  else
    let sameComponentExists :=
      draftSchedule.any (fun item => decide (sameTuple item classItem))
    match checkTimeConflict classItem draftSchedule with
    | .error e => .error e
    | .ok (some conflictingClass) =>
      .ok (.TimeConflict conflictingClass, draftSchedule)
    | .ok none =>
      if sameComponentExists then
        .ok (.Replace,
          draftSchedule.map fun item =>
            if sameTuple item classItem then classItem else item)
      else
        .ok (.New, draftSchedule ++ [classItem])

/-- The draft list after `addClassToDraft`: on a thrown exception the
queued state update never ran, so the draft is unchanged. -/
def draftAfterAdd (classItem : Sec) (draftSchedule : List Sec) : List Sec :=
  match addClassToDraft classItem draftSchedule with
  | .ok (_, next) => next
  | .error _ => draftSchedule

/-- The outcome `addClassToDraft` reports, when it does not throw. -/
def addOutcome (classItem : Sec) (draftSchedule : List Sec) : Option Outcome :=
  match addClassToDraft classItem draftSchedule with
  | .ok (o, _) => some o
  | .error _ => none

/-- The Draft Store's state: the persisted-state fields of
`ScheduleBuilderProvider`. -/
structure DraftState where
  draftSchedule : List Sec
  draftScheduleName : String
  draftSemester : String
  draftYear : String
  isEditingExisting : Bool
  existingScheduleId : Option String
deriving DecidableEq, Repr

/-- `removeClassFromDraft(index)`: the state update filters out the
element at position `index` (a no-op when nothing has that position);
the removal toast then reads `draftSchedule[index].dept`, which throws a
`TypeError` when `index` is out of range (the element access yields
`undefined`).  The queued state update still applies.  Returns the next
state and whether the call threw. -/
def removeClassFromDraft (index : ℤ) (st : DraftState) : DraftState × Bool :=
  let next := (st.draftSchedule.enum.filter
    (fun p => (p.1 : ℤ) != index)).map Prod.snd
  let threw := !(decide (0 ≤ index ∧ index < st.draftSchedule.length))
  ({ st with draftSchedule := next }, threw)

/-- `clearDraft()`: empties the draft list and clears the editing flag.
The source does not touch `draftScheduleName`, `draftSemester`,
`draftYear`, and its `setExistingScheduleId(null)` line is commented
out. -/
def clearDraft (st : DraftState) : DraftState :=
  { st with draftSchedule := [], isEditingExisting := false }

/-- A saved schedule as passed to `loadExistingScheduleIntoDraft`. -/
structure SavedSchedule where
  id : Option String
  name : String
  semester : String
  year : String
  classes : List Sec
deriving DecidableEq, Repr

/-- `loadExistingScheduleIntoDraft(schedule)`: replaces the entire draft
state with the saved schedule's contents and marks editing-mode true. -/
def loadExistingScheduleIntoDraft (schedule : SavedSchedule) (st : DraftState) :
    DraftState :=
  { st with
    draftSchedule := schedule.classes
    draftScheduleName := schedule.name
    draftSemester := schedule.semester
    draftYear := schedule.year
    isEditingExisting := true
    existingScheduleId := schedule.id }

/-- How many sections of the draft carry a given
(department, code, component) tuple. -/
def tupleCount (d : List Sec) (D C K : String) : Nat :=
  d.countP fun s => decide (s.dept = D ∧ s.code = C ∧ s.component = K)

/-- The Draft Schedule invariant: at most one section per
(department, code, component) tuple. -/
def atMostOnePerTuple (d : List Sec) : Prop :=
  ∀ D C K : String, tupleCount d D C K ≤ 1

/-! ### Concrete fixture sections, following the spec's test scenarios -/

/-- CS 101 LEC, Monday 9:00–9:50. -/
def secA : Sec :=
  { uuid := "a", classID := 1, dept := "CS", code := "101", component := "LEC",
    days := "M", starttime := "9:00", endtime := "9:50" }

/-- CS 101 LEC, Monday 9:00–9:50, a different section id than `secA`. -/
def secB : Sec :=
  { uuid := "b", classID := 2, dept := "CS", code := "101", component := "LEC",
    days := "M", starttime := "9:00", endtime := "9:50" }

/-- MATH 50 LEC, Monday 9:30–10:20. -/
def secZ : Sec :=
  { uuid := "z", classID := 3, dept := "MATH", code := "50", component := "LEC",
    days := "M", starttime := "9:30", endtime := "10:20" }

/-- CS 101 LEC, Monday 9:30–10:20 — the swap candidate that newly
collides with `secZ`. -/
def secB2 : Sec :=
  { uuid := "b", classID := 2, dept := "CS", code := "101", component := "LEC",
    days := "M", starttime := "9:30", endtime := "10:20" }

/-- MATH 101 LEC, Tuesday/Thursday 9:00–9:50 — day-disjoint from `secA`. -/
def secN : Sec :=
  { uuid := "n", classID := 4, dept := "MATH", code := "101", component := "LEC",
    days := "TuTh", starttime := "9:00", endtime := "9:50" }

/-- MATH 50 LEC, Monday 9:50–10:40 — starts exactly when `secA` ends. -/
def secQ : Sec :=
  { uuid := "q", classID := 5, dept := "MATH", code := "50", component := "LEC",
    days := "M", starttime := "9:50", endtime := "10:40" }

/-- CS 200 LEC, Monday 9:00–10:00. -/
def secR : Sec :=
  { uuid := "r", classID := 6, dept := "CS", code := "200", component := "LEC",
    days := "M", starttime := "9:00", endtime := "10:00" }

/-- MATH 60 LEC, Monday 9:59–10:30 — overlaps `secR` by one minute. -/
def secS : Sec :=
  { uuid := "s", classID := 7, dept := "MATH", code := "60", component := "LEC",
    days := "M", starttime := "9:59", endtime := "10:30" }

/-- A populated draft state with non-empty metadata. -/
def exSt : DraftState :=
  { draftSchedule := [secA], draftScheduleName := "My Schedule",
    draftSemester := "Fall 2025", draftYear := "2025",
    isEditingExisting := true, existingScheduleId := some "sched-1" }


/-! ### Characterization lemmas -/

/-- Branch characterization of `addClassToDraft`, with the boolean scans
expressed as existentials over the draft. -/
theorem addClassToDraft_eq (c : Sec) (d : List Sec) :
    addClassToDraft c d =
      if ∃ s ∈ d, s.uuid = c.uuid then .ok (.Duplicate, d)
      else
        match checkTimeConflict c d with
        | .error e => .error e
        | .ok (some z) => .ok (.TimeConflict z, d)
        | .ok none =>
          if ∃ s ∈ d, sameTuple s c then
            .ok (.Replace, d.map fun item => if sameTuple item c then c else item)
          else .ok (.New, d ++ [c]) := by
  simp only [addClassToDraft, List.any_eq_true, decide_eq_true_eq]

/-- Branch lemma: a draft member with the candidate's `uuid` gives
`Duplicate` and leaves the draft unchanged. -/
theorem addClassToDraft_dup (c : Sec) (d : List Sec)
    (hdup : ∃ s ∈ d, s.uuid = c.uuid) :
    addClassToDraft c d = .ok (.Duplicate, d) := by
  rw [addClassToDraft_eq, if_pos hdup]

/-- Branch lemma: when the conflict scan throws, `addClassToDraft`
throws. -/
theorem addClassToDraft_throw (c : Sec) (d : List Sec)
    (hdup : ¬ ∃ s ∈ d, s.uuid = c.uuid)
    (hc : checkTimeConflict c d = .error ()) :
    addClassToDraft c d = .error () := by
  simp only [addClassToDraft_eq, if_neg hdup, hc]

/-- Branch lemma: a reported conflict gives `TimeConflict` and leaves
the draft unchanged. -/
theorem addClassToDraft_conflict (c : Sec) (d : List Sec) (z : Sec)
    (hdup : ¬ ∃ s ∈ d, s.uuid = c.uuid)
    (hc : checkTimeConflict c d = .ok (some z)) :
    addClassToDraft c d = .ok (.TimeConflict z, d) := by
  simp only [addClassToDraft_eq, if_neg hdup, hc]

/-- Branch lemma: no duplicate, no conflict, and a same-tuple match give
`Replace`, swapping the candidate in for every matching entry. -/
theorem addClassToDraft_replace (c : Sec) (d : List Sec)
    (hdup : ¬ ∃ s ∈ d, s.uuid = c.uuid)
    (hc : checkTimeConflict c d = .ok none)
    (hsame : ∃ s ∈ d, sameTuple s c) :
    addClassToDraft c d =
      .ok (.Replace, d.map fun item => if sameTuple item c then c else item) := by
  simp only [addClassToDraft_eq, if_neg hdup, hc, if_pos hsame]

/-- Branch lemma: none of the above appends the candidate with `New`. -/
theorem addClassToDraft_new (c : Sec) (d : List Sec)
    (hdup : ¬ ∃ s ∈ d, s.uuid = c.uuid)
    (hc : checkTimeConflict c d = .ok none)
    (hnsame : ¬ ∃ s ∈ d, sameTuple s c) :
    addClassToDraft c d = .ok (.New, d ++ [c]) := by
  simp only [addClassToDraft_eq, if_neg hdup, hc, if_neg hnsame]

/-- A reported conflicting section comes from the scanned list and never
shares the candidate's (dept, code, component) tuple. -/
theorem checkConflictScan_some (c : Sec) (nd : List String)
    (ns ne : Option ℚ) :
    ∀ d z, checkConflictScan c nd ns ne d = .ok (some z) →
      z ∈ d ∧ ¬ sameTuple z c := by
  intro d
  induction d with
  | nil => intro z h; simp [checkConflictScan] at h
  | cons e rest ih =>
    intro z h
    unfold checkConflictScan at h
    split at h
    case isTrue hst =>
      rcases ih z h with ⟨hm, hns⟩
      exact ⟨List.mem_cons_of_mem _ hm, hns⟩
    case isFalse hst =>
      split at h
      · exact absurd h (by simp)
      · split at h
        · exact absurd h (by simp)
        · split at h
          · simp only [] at h
            split at h
            · obtain rfl : e = z := by simpa using h
              exact ⟨List.mem_cons_self _ _, hst⟩
            · rcases ih z h with ⟨hm, hns⟩
              exact ⟨List.mem_cons_of_mem _ hm, hns⟩
          · simp only [ite_self] at h
            rcases ih z h with ⟨hm, hns⟩
            exact ⟨List.mem_cons_of_mem _ hm, hns⟩

/-- Lifting of `checkConflictScan_some` to `checkTimeConflict`. -/
theorem checkTimeConflict_some (c : Sec) (d : List Sec) (z : Sec)
    (h : checkTimeConflict c d = .ok (some z)) :
    z ∈ d ∧ ¬ sameTuple z c := by
  unfold checkTimeConflict at h
  split at h
  · exact absurd h (by simp)
  · split at h
    · exact absurd h (by simp)
    · exact checkConflictScan_some _ _ _ _ d z h

/-- The conflict scan ignores exactly the same-tuple sections: scanning
the draft and scanning the draft with the candidate's same-tuple
sections removed give identical results. -/
theorem checkConflictScan_filter (c : Sec) (nd : List String)
    (ns ne : Option ℚ) :
    ∀ d, checkConflictScan c nd ns ne
        (d.filter fun s => decide (¬ sameTuple s c)) =
      checkConflictScan c nd ns ne d := by
  intro d
  induction d with
  | nil => rfl
  | cons e rest ih =>
    by_cases hst : sameTuple e c
    · have hc : decide (¬ sameTuple e c) = false := by simp [hst]
      simp only [List.filter_cons, hc, Bool.false_eq_true, if_false]
      simp only [checkConflictScan, if_pos hst, ih]
    · have hc : decide (¬ sameTuple e c) = true := by simp [hst]
      simp only [List.filter_cons, hc, if_true]
      simp only [checkConflictScan, if_neg hst, ih]

/-- `checkTimeConflict` is unchanged by removing the candidate's
same-tuple sections from the scanned list. -/
theorem checkTimeConflict_filter (c : Sec) (d : List Sec) :
    checkTimeConflict c (d.filter fun s => decide (¬ sameTuple s c)) =
      checkTimeConflict c d := by
  unfold checkTimeConflict
  split
  · rfl
  · split
    · rfl
    · exact checkConflictScan_filter _ _ _ _ d

/-- Replacing the candidate's same-tuple entries preserves the count of
the candidate's own tuple. -/
theorem tupleCount_map_replace (c : Sec) (d : List Sec) :
    tupleCount (d.map fun item => if sameTuple item c then c else item)
      c.dept c.code c.component = tupleCount d c.dept c.code c.component := by
  unfold tupleCount
  rw [List.countP_map]
  apply List.countP_congr
  intro s hs
  by_cases hst : sameTuple s c
  · simp [Function.comp, if_pos hst, hst.1, hst.2.1, hst.2.2]
  · simp [Function.comp, if_neg hst]

/-- Replacing the candidate's same-tuple entries never increases the
count of any tuple. -/
theorem tupleCount_map_replace_le (c : Sec) (d : List Sec) (D C K : String) :
    tupleCount (d.map fun item => if sameTuple item c then c else item) D C K
      ≤ tupleCount d D C K := by
  unfold tupleCount
  rw [List.countP_map]
  by_cases hpc : c.dept = D ∧ c.code = C ∧ c.component = K
  · apply le_of_eq
    apply List.countP_congr
    intro s hs
    by_cases hst : sameTuple s c
    · simp only [Function.comp, if_pos hst, decide_eq_true_eq]
      constructor
      · intro _
        exact ⟨hst.1.trans hpc.1, hst.2.1.trans hpc.2.1, hst.2.2.trans hpc.2.2⟩
      · intro _
        exact hpc
    · simp [Function.comp, if_neg hst]
  · apply List.countP_mono_left
    intro s hs hps
    by_cases hst : sameTuple s c
    · rw [Function.comp_apply, if_pos hst] at hps
      exact absurd (by simpa using hps) hpc
    · rwa [Function.comp_apply, if_neg hst] at hps

/-- The draft after `removeClassFromDraft` is a sublist of the draft
before. -/
theorem removeClassFromDraft_sublist (i : ℤ) (st : DraftState) :
    List.Sublist ((removeClassFromDraft i st).1).draftSchedule st.draftSchedule := by
  unfold removeClassFromDraft
  have h1 : List.Sublist (st.draftSchedule.enum.filter fun p => (p.1 : ℤ) != i)
      st.draftSchedule.enum := List.filter_sublist _
  have h2 := h1.map Prod.snd
  rwa [List.enum_map_snd] at h2

end ScheduleBuilder

/-! ## Claims -/

open ScheduleBuilder

/-- C1.  `addClassToDraft` classifies in this priority order: a matching
`uuid` in the draft returns `Duplicate` (and leaves the draft alone);
otherwise a time conflict reported by the scan — necessarily against a
different-tuple member of the draft — returns `TimeConflict` even when a
same-tuple match exists (overriding `Replace`); otherwise a same-tuple
match returns `Replace` (swapping in place); otherwise the candidate is
appended with `New`. -/
theorem C1_addClassToDraft_priority (c : Sec) (d : List Sec) :
    ((∃ s ∈ d, s.uuid = c.uuid) → addClassToDraft c d = .ok (.Duplicate, d))
    ∧ ((¬ ∃ s ∈ d, s.uuid = c.uuid) →
        (∀ z, checkTimeConflict c d = .ok (some z) →
          z ∈ d ∧ ¬ sameTuple z c ∧
            addClassToDraft c d = .ok (.TimeConflict z, d))
        ∧ (checkTimeConflict c d = .ok none →
            ((∃ s ∈ d, sameTuple s c) →
              addClassToDraft c d =
                .ok (.Replace,
                  d.map fun item => if sameTuple item c then c else item))
            ∧ ((¬ ∃ s ∈ d, sameTuple s c) →
              addClassToDraft c d = .ok (.New, d ++ [c])))) := by
  refine ⟨addClassToDraft_dup c d,
    fun hdup => ⟨fun z hz => ?_,
      fun hnc => ⟨addClassToDraft_replace c d hdup hnc,
        addClassToDraft_new c d hdup hnc⟩⟩⟩
  obtain ⟨hm, hnt⟩ := checkTimeConflict_some c d z hz
  exact ⟨hm, hnt, addClassToDraft_conflict c d z hdup hz⟩

/-- Witness for C1: each branch of the priority order at a concrete
draft — duplicate id, swap blocked by a genuine other-course conflict,
same-tuple replace, and a day-disjoint new addition. -/
theorem C1_witness :
    addClassToDraft secA [secA] = .ok (.Duplicate, [secA])
    ∧ addClassToDraft secB2 [secA, secZ] = .ok (.TimeConflict secZ, [secA, secZ])
    ∧ addClassToDraft secB [secA] = .ok (.Replace, [secB])
    ∧ addClassToDraft secN [secA] = .ok (.New, [secA, secN]) := by
  refine ⟨(C1_addClassToDraft_priority secA [secA]).1 (by decide),
    (((C1_addClassToDraft_priority secB2 [secA, secZ]).2 (by decide)).1
      secZ (by with_unfolding_all decide)).2.2, ?_, ?_⟩
  · have h := ((C1_addClassToDraft_priority secB [secA]).2 (by decide)).2
      (by with_unfolding_all decide)
    exact (h.1 (by decide)).trans (by with_unfolding_all decide)
  · have h := ((C1_addClassToDraft_priority secN [secA]).2 (by decide)).2
      (by with_unfolding_all decide)
    exact h.2 (by decide)

/-- C2.  The conflict scan excludes exactly the candidate's same-tuple
sections: scanning the draft equals scanning the draft with same-tuple
sections filtered out; consequently a candidate whose tuple matches the
single draft member is `Replace`d even with identical day-and-time
windows, while the spec's swap scenario (`secB2` replacing `secA` but
newly colliding with `secZ`) is reported as `TimeConflict` with `secZ`. -/
theorem C2_scan_excludes_sameTuple :
    (∀ (c : Sec) (d : List Sec),
      checkTimeConflict c (d.filter fun s => decide (¬ sameTuple s c)) =
        checkTimeConflict c d)
    ∧ (∀ c s : Sec, s.uuid ≠ c.uuid → sameTuple s c →
        ∀ q1 q2, TimeUtils.timeToDecimal c.starttime = .ok q1 →
          TimeUtils.timeToDecimal c.endtime = .ok q2 →
          addClassToDraft c [s] = .ok (.Replace, [c]))
    ∧ addClassToDraft secB2 [secA, secZ] =
        .ok (.TimeConflict secZ, [secA, secZ]) := by
  refine ⟨checkTimeConflict_filter, fun c s hne hst q1 q2 h1 h2 => ?_,
    by with_unfolding_all decide⟩
  have hnc : checkTimeConflict c [s] = .ok none := by
    simp only [checkTimeConflict, h1, h2, checkConflictScan, if_pos hst]
  have hdup : ¬ ∃ x ∈ [s], x.uuid = c.uuid := by
    simpa using hne
  simp only [addClassToDraft_eq, if_neg hdup, hnc,
    if_pos (⟨s, List.mem_singleton_self s, hst⟩ : ∃ x ∈ [s], sameTuple x c),
    List.map_cons, List.map_nil, if_pos hst]

/-- Witness for C2: the same-tuple/identical-window pair (`secB` over
`secA`) really is replaced. -/
theorem C2_witness : addClassToDraft secB [secA] = .ok (.Replace, [secB]) := by
  exact C2_scan_excludes_sameTuple.2.1 secB secA (by decide) (by decide)
    (some 9) (some (59 / 6)) (by with_unfolding_all decide)
    (by with_unfolding_all decide)

/-- C4.  On a shared day, and against a different-tuple section, the
scan reports a conflict exactly under the half-open rule
`startA < endB ∧ startB < endA`; in particular touching endpoints
(`end = start` either way) never conflict. -/
theorem C4_halfOpen_overlap (c e : Sec) (cs ce es ee : ℚ)
    (h1 : TimeUtils.timeToDecimal c.starttime = .ok (some cs))
    (h2 : TimeUtils.timeToDecimal c.endtime = .ok (some ce))
    (h3 : TimeUtils.timeToDecimal e.starttime = .ok (some es))
    (h4 : TimeUtils.timeToDecimal e.endtime = .ok (some ee))
    (hdiff : ¬ sameTuple e c)
    (hday : ((TimeUtils.parseDays c.days).any fun day =>
        (TimeUtils.parseDays e.days).contains day) = true) :
    (checkTimeConflict c [e] = .ok (some e) ↔ cs < ee ∧ es < ce)
    ∧ (ce = es ∨ ee = cs → checkTimeConflict c [e] = .ok none) := by
  have base : checkTimeConflict c [e] =
      if cs < ee ∧ es < ce then .ok (some e) else .ok none := by
    simp only [checkTimeConflict, h1, h2, checkConflictScan, if_neg hdiff,
      h3, h4, hday, if_true, jsLt]
    by_cases hov : cs < ee ∧ es < ce
    · simp [hov.1, hov.2, hov]
    · rw [if_neg hov]
      rcases Decidable.not_and_iff_or_not.mp hov with hn | hn
      · simp [hn]
      · simp [hn]
  refine ⟨?_, fun hb => ?_⟩
  · rw [base]
    by_cases hov : cs < ee ∧ es < ce
    · simp [hov]
    · simp [hov]
  · rw [base, if_neg]
    rintro ⟨o1, o2⟩
    rcases hb with rfl | rfl
    · exact absurd o2 (lt_irrefl _)
    · exact absurd o1 (lt_irrefl _)

/-- Witness for C4: `secA` (Mon 9:00–9:50) against `secQ` (Mon
9:50–10:40) touch end-to-start and do not conflict; `secR` (Mon
9:00–10:00) against `secS` (Mon 9:59–10:30) overlap by one minute and
do conflict. -/
theorem C4_witness :
    checkTimeConflict secA [secQ] = .ok none
    ∧ checkTimeConflict secR [secS] = .ok (some secS) := by
  constructor
  · exact (C4_halfOpen_overlap secA secQ 9 (59 / 6) (59 / 6) (32 / 3)
      (by with_unfolding_all decide) (by with_unfolding_all decide)
      (by with_unfolding_all decide) (by with_unfolding_all decide)
      (by decide) (by with_unfolding_all decide)).2 (Or.inl rfl)
  · exact (C4_halfOpen_overlap secR secS 9 10 (599 / 60) (21 / 2)
      (by with_unfolding_all decide) (by with_unfolding_all decide)
      (by with_unfolding_all decide) (by with_unfolding_all decide)
      (by decide) (by with_unfolding_all decide)).1.mpr
      ⟨by norm_num, by norm_num⟩

/-- C5, counterexample.  The claim asserts that a second consecutive
`addSection(s)` always reports `Duplicate`.  With the draft `[secZ]` and
the candidate `secB2` (which overlaps `secZ` on Monday), the first call
reports `TimeConflict` and changes nothing, so the second call reports
`TimeConflict` again, not `Duplicate`. -/
theorem C5_counterexample :
    addClassToDraft secB2 [secZ] = .ok (.TimeConflict secZ, [secZ])
    ∧ draftAfterAdd secB2 [secZ] = [secZ]
    ∧ addOutcome secB2 (draftAfterAdd secB2 [secZ]) = some (.TimeConflict secZ)
    ∧ Outcome.TimeConflict secZ ≠ Outcome.Duplicate := by
  with_unfolding_all decide

/-- C5, amended.  When the outcome is `Duplicate` or `TimeConflict` the
draft is unchanged; the second of two consecutive `addSection(s)` calls
never changes the draft length; and the second call's outcome is
`Duplicate` whenever the first call's outcome was `New`, `Replace` or
`Duplicate` (after a `TimeConflict`, or a thrown time-parse error, the
second call instead repeats the first call's result). -/
theorem C5_amended (c : Sec) (d : List Sec) :
    (∀ o d2, addClassToDraft c d = .ok (o, d2) →
      (o = .Duplicate ∨ ∃ z, o = .TimeConflict z) → d2 = d)
    ∧ (draftAfterAdd c (draftAfterAdd c d)).length = (draftAfterAdd c d).length
    ∧ (∀ o d1, addClassToDraft c d = .ok (o, d1) →
        (o = .New ∨ o = .Replace ∨ o = .Duplicate) →
        addClassToDraft c d1 = .ok (.Duplicate, d1)) := by
  by_cases hdup : ∃ s ∈ d, s.uuid = c.uuid
  · have he := addClassToDraft_dup c d hdup
    have hd : draftAfterAdd c d = d := by simp [draftAfterAdd, he]
    refine ⟨fun o d2 h _ => ?_, by rw [hd, hd], fun o d1 h _ => ?_⟩
    · exact (show Outcome.Duplicate = o ∧ d = d2 by simpa using he.symm.trans h).2.symm
    · obtain ⟨-, rfl⟩ :=
        (show Outcome.Duplicate = o ∧ d = d1 by simpa using he.symm.trans h)
      exact he
  · rcases hc : checkTimeConflict c d with u | zo
    · obtain ⟨⟩ := u
      have he := addClassToDraft_throw c d hdup hc
      have hd : draftAfterAdd c d = d := by simp [draftAfterAdd, he]
      refine ⟨fun o d2 h _ => ?_, by rw [hd, hd], fun o d1 h _ => ?_⟩
      · rw [he] at h; simp at h
      · rw [he] at h; simp at h
    · cases zo with
      | some z =>
        have he := addClassToDraft_conflict c d z hdup hc
        have hd : draftAfterAdd c d = d := by simp [draftAfterAdd, he]
        refine ⟨fun o d2 h _ => ?_, by rw [hd, hd], fun o d1 h ho => ?_⟩
        · exact (show Outcome.TimeConflict z = o ∧ d = d2 by
            simpa using he.symm.trans h).2.symm
        · rw [he] at h
          rcases ho with rfl | rfl | rfl <;> simp at h
      | none =>
        by_cases hsame : ∃ s ∈ d, sameTuple s c
        · have he := addClassToDraft_replace c d hdup hc hsame
          have hd : draftAfterAdd c d =
              d.map (fun item => if sameTuple item c then c else item) := by
            simp [draftAfterAdd, he]
          have hcmem : ∃ x ∈ d.map (fun item =>
              if sameTuple item c then c else item), x.uuid = c.uuid := by
            obtain ⟨s, hs, hst⟩ := hsame
            exact ⟨c, List.mem_map.mpr ⟨s, hs, by rw [if_pos hst]⟩, rfl⟩
          have he2 := addClassToDraft_dup c _ hcmem
          have hd2 : draftAfterAdd c
              (d.map fun item => if sameTuple item c then c else item) =
              d.map (fun item => if sameTuple item c then c else item) := by
            simp [draftAfterAdd, he2]
          refine ⟨fun o d2 h ho => ?_, by rw [hd, hd2], fun o d1 h ho => ?_⟩
          · rw [he] at h
            rcases ho with rfl | ⟨z, rfl⟩ <;> simp at h
          · obtain ⟨-, rfl⟩ := (show Outcome.Replace = o ∧
                d.map (fun item => if sameTuple item c then c else item) = d1 by
              simpa using he.symm.trans h)
            exact he2
        · have he := addClassToDraft_new c d hdup hc hsame
          have hd : draftAfterAdd c d = d ++ [c] := by simp [draftAfterAdd, he]
          have hcmem : ∃ x ∈ d ++ [c], x.uuid = c.uuid := ⟨c, by simp, rfl⟩
          have he2 := addClassToDraft_dup c (d ++ [c]) hcmem
          have hd2 : draftAfterAdd c (d ++ [c]) = d ++ [c] := by
            simp [draftAfterAdd, he2]
          refine ⟨fun o d2 h ho => ?_, by rw [hd, hd2], fun o d1 h ho => ?_⟩
          · rw [he] at h
            rcases ho with rfl | ⟨z, rfl⟩ <;> simp at h
          · obtain ⟨-, rfl⟩ := (show Outcome.New = o ∧ d ++ [c] = d1 by
              simpa using he.symm.trans h)
            exact he2

/-- Witness for C5 (amended): adding `secA` to the empty draft yields
`New`, and the immediately repeated call reports `Duplicate` with the
length unchanged; the repeated-length part also holds across the
`TimeConflict` first call. -/
theorem C5_witness :
    addClassToDraft secA [secA] = .ok (.Duplicate, [secA])
    ∧ (draftAfterAdd secB2 (draftAfterAdd secB2 [secZ])).length =
        (draftAfterAdd secB2 [secZ]).length := by
  constructor
  · exact (C5_amended secA []).2.2 .New [secA]
      (by with_unfolding_all decide) (Or.inl rfl)
  · exact (C5_amended secB2 [secZ]).2.1

/-- C3.  The "at most one section per (dept, code, component) tuple"
invariant: a draft holding exactly one section of the candidate's tuple
still holds exactly one after `addClassToDraft`; and the invariant is
preserved by `addClassToDraft`, `removeClassFromDraft` and `clearDraft`,
and established by `loadExistingScheduleIntoDraft` whenever the loaded
schedule's class list satisfies it (the load replaces the draft
wholesale). -/
theorem C3_tuple_invariant :
    (∀ (c : Sec) (d : List Sec) (D C K : String),
      c.dept = D → c.code = C → c.component = K →
      tupleCount d D C K = 1 →
      tupleCount (draftAfterAdd c d) D C K = 1)
    ∧ (∀ (c : Sec) (d : List Sec), atMostOnePerTuple d →
        atMostOnePerTuple (draftAfterAdd c d))
    ∧ (∀ (i : ℤ) (st : DraftState), atMostOnePerTuple st.draftSchedule →
        atMostOnePerTuple ((removeClassFromDraft i st).1).draftSchedule)
    ∧ (∀ st : DraftState, atMostOnePerTuple (clearDraft st).draftSchedule)
    ∧ (∀ (sch : SavedSchedule) (st : DraftState), atMostOnePerTuple sch.classes →
        atMostOnePerTuple (loadExistingScheduleIntoDraft sch st).draftSchedule) := by
  refine ⟨?_, ?_, ?_, ?_, ?_⟩
  · intro c d D C K hD hC hK hcount
    subst hD; subst hC; subst hK
    by_cases hdup : ∃ s ∈ d, s.uuid = c.uuid
    · simpa [draftAfterAdd, addClassToDraft_dup c d hdup] using hcount
    · rcases hc : checkTimeConflict c d with u | zo
      · obtain ⟨⟩ := u
        simpa [draftAfterAdd, addClassToDraft_throw c d hdup hc] using hcount
      · cases zo with
        | some z =>
          simpa [draftAfterAdd, addClassToDraft_conflict c d z hdup hc]
            using hcount
        | none =>
          by_cases hsame : ∃ s ∈ d, sameTuple s c
          · rw [show draftAfterAdd c d =
                d.map (fun item => if sameTuple item c then c else item) by
              simp [draftAfterAdd, addClassToDraft_replace c d hdup hc hsame]]
            rw [tupleCount_map_replace]
            exact hcount
          · exfalso
            have hpos : 0 < tupleCount d c.dept c.code c.component := by
              rw [hcount]; norm_num
            obtain ⟨s, hs, hps⟩ := List.countP_pos_iff.mp hpos
            exact hsame ⟨s, hs, by simpa using hps⟩
  · intro c d hinv D C K
    by_cases hdup : ∃ s ∈ d, s.uuid = c.uuid
    · simpa [draftAfterAdd, addClassToDraft_dup c d hdup] using hinv D C K
    · rcases hc : checkTimeConflict c d with u | zo
      · obtain ⟨⟩ := u
        simpa [draftAfterAdd, addClassToDraft_throw c d hdup hc] using hinv D C K
      · cases zo with
        | some z =>
          simpa [draftAfterAdd, addClassToDraft_conflict c d z hdup hc]
            using hinv D C K
        | none =>
          by_cases hsame : ∃ s ∈ d, sameTuple s c
          · rw [show draftAfterAdd c d =
                d.map (fun item => if sameTuple item c then c else item) by
              simp [draftAfterAdd, addClassToDraft_replace c d hdup hc hsame]]
            exact le_trans (tupleCount_map_replace_le c d D C K) (hinv D C K)
          · rw [show draftAfterAdd c d = d ++ [c] by
              simp [draftAfterAdd, addClassToDraft_new c d hdup hc hsame]]
            have hinvDCK := hinv D C K
            unfold tupleCount at hinvDCK ⊢
            rw [List.countP_append]
            by_cases hpc : c.dept = D ∧ c.code = C ∧ c.component = K
            · have h0 : d.countP
                  (fun s => decide (s.dept = D ∧ s.code = C ∧ s.component = K))
                  = 0 := by
                rw [List.countP_eq_zero]
                intro s hs hps
                refine hsame ⟨s, hs, ?_⟩
                have hps' : s.dept = D ∧ s.code = C ∧ s.component = K := by
                  simpa using hps
                exact ⟨hps'.1.trans hpc.1.symm, hps'.2.1.trans hpc.2.1.symm,
                  hps'.2.2.trans hpc.2.2.symm⟩
              have h1 : List.countP
                  (fun s => decide (s.dept = D ∧ s.code = C ∧ s.component = K))
                  [c] = 1 := by
                simp [List.countP_cons, hpc.1, hpc.2.1, hpc.2.2]
              rw [h0, h1]
            · have h1 : List.countP
                  (fun s => decide (s.dept = D ∧ s.code = C ∧ s.component = K))
                  [c] = 0 := by
                simp [hpc]
              rw [h1]
              simpa using hinvDCK
  · intro i st hinv D C K
    exact le_trans
      (List.Sublist.countP_le _ (removeClassFromDraft_sublist i st)) (hinv D C K)
  · intro st D C K
    simp [clearDraft, tupleCount]
  · intro sch st hinv D C K
    simpa [loadExistingScheduleIntoDraft] using hinv D C K

/-- Witness for C3: the draft `[secA]` holds exactly one CS/101/LEC
section; after adding `secB` (same tuple, different id) it still holds
exactly one. -/
theorem C3_witness :
    tupleCount [secA] "CS" "101" "LEC" = 1
    ∧ tupleCount (draftAfterAdd secB [secA]) "CS" "101" "LEC" = 1 := by
  refine ⟨by with_unfolding_all decide, ?_⟩
  exact C3_tuple_invariant.1 secB [secA] "CS" "101" "LEC" rfl rfl rfl
    (by with_unfolding_all decide)

/-- C6, counterexample.  The client-side greedy `parseDays` and the
server-side single-letter `parseDays` do not denote the same weekday
sets: on `"TuTh"` the client reads {Tuesday, Thursday}, while the server
upper-cases to `"TUTH"` and keeps {T, U} = {Tuesday, Sunday}. -/
theorem C6_counterexample :
    clientDaySetNames "TuTh" = {"Tuesday", "Thursday"}
    ∧ AddClassRoute.daySetNames "TuTh" = {"Tuesday", "Sunday"}
    ∧ clientDaySetNames "TuTh" ≠ AddClassRoute.daySetNames "TuTh" := by
  with_unfolding_all decide

/-- C6, amended.  No single canonical day-letter encoding is applied:
the two `parseDays` implementations agree on day strings over the
letters the schemes share (`M`, `W`, `F`, `U`), but disagree on the
two-letter codes (`"TuTh"`) and on the single-letter codes `T`/`R`
(`"TR"`), so the encodings are mutually incompatible. -/
theorem C6_amended :
    (∀ s ∈ (["M", "W", "F", "U", "MW", "WF", "MWF", "MWFU"] : List String),
      clientDaySetNames s = AddClassRoute.daySetNames s)
    ∧ clientDaySetNames "TuTh" ≠ AddClassRoute.daySetNames "TuTh"
    ∧ clientDaySetNames "TR" ≠ AddClassRoute.daySetNames "TR" := by
  with_unfolding_all decide

/-- Witness for C6 (amended): both schemes read `"MWF"` as
{Monday, Wednesday, Friday}. -/
theorem C6_witness :
    clientDaySetNames "MWF" = AddClassRoute.daySetNames "MWF" :=
  C6_amended.1 "MWF" (by decide)

/-- C7, counterexample.  The claim asserts `clearDraft` resets name,
term and term-year.  On a populated state, `clearDraft` empties the
sequence but leaves the name `"My Schedule"`, the semester and the year
untouched (their reset value would be the empty string, the
`usePersistedState` initial value). -/
theorem C7_counterexample :
    (clearDraft exSt).draftSchedule = []
    ∧ (clearDraft exSt).draftScheduleName = "My Schedule"
    ∧ (clearDraft exSt).draftScheduleName ≠ ""
    ∧ (clearDraft exSt).draftSemester ≠ ""
    ∧ (clearDraft exSt).draftYear ≠ "" := by
  with_unfolding_all decide

/-- C7, amended.  `clearDraft` empties the draft sequence and clears the
editing-mode flag in one state transition, but leaves the name, the
term, the term-year and the linked saved-schedule id unchanged. -/
theorem C7_amended (st : DraftState) :
    (clearDraft st).draftSchedule = []
    ∧ (clearDraft st).isEditingExisting = false
    ∧ (clearDraft st).draftScheduleName = st.draftScheduleName
    ∧ (clearDraft st).draftSemester = st.draftSemester
    ∧ (clearDraft st).draftYear = st.draftYear
    ∧ (clearDraft st).existingScheduleId = st.existingScheduleId :=
  ⟨rfl, rfl, rfl, rfl, rfl, rfl⟩

/-- C8, counterexample.  The claim asserts out-of-range removal is a
silent no-op.  With index 5 on a one-element draft, the state is indeed
unchanged, but the call is not silent: building the removal toast reads
`draftSchedule[5].dept` on `undefined` and throws. -/
theorem C8_counterexample :
    (removeClassFromDraft 5 exSt).2 = true
    ∧ (removeClassFromDraft 5 exSt).1 = exSt := by
  with_unfolding_all decide

/-- C8, amended.  For every out-of-range index the draft state is
unchanged (the filter removes nothing), but the call throws a
`TypeError` while building the removal notification instead of failing
silently. -/
theorem C8_amended (i : ℤ) (st : DraftState)
    (hout : i < 0 ∨ (st.draftSchedule.length : ℤ) ≤ i) :
    (removeClassFromDraft i st).1 = st
    ∧ (removeClassFromDraft i st).2 = true := by
  constructor
  · show ({ st with draftSchedule := (st.draftSchedule.enum.filter
      (fun p => (p.1 : ℤ) != i)).map Prod.snd } : DraftState) = st
    have hfil : st.draftSchedule.enum.filter (fun p => (p.1 : ℤ) != i) =
        st.draftSchedule.enum := by
      apply List.filter_eq_self.mpr
      intro p hp
      have hlt : p.1 < st.draftSchedule.length := by
        have h := List.fst_lt_add_of_mem_enumFrom (x := p) (n := 0)
          (l := st.draftSchedule) (by simpa [List.enum] using hp)
        simpa using h
      simp only [bne_iff_ne, ne_eq]
      intro hEq
      rcases hout with h | h <;> omega
    rw [hfil, List.enum_map_snd]
  · have hcond : ¬ (0 ≤ i ∧ i < (st.draftSchedule.length : ℤ)) := by
      rintro ⟨h1, h2⟩
      rcases hout with h | h <;> omega
    simp [removeClassFromDraft, hcond]

/-- Witness for C8 (amended): a negative index on a populated state. -/
theorem C8_witness :
    (removeClassFromDraft (-1) exSt).1 = exSt
    ∧ (removeClassFromDraft (-1) exSt).2 = true :=
  C8_amended (-1) exSt (Or.inl (by norm_num))

/-- C9, counterexample.  The claim asserts `timeToDecimal` never throws
and falls back to 0 on malformed input, and that `calculateDuration`
returns 1.0 whenever either parse fails.  In fact `"9:00AM"` (meridiem
marker without a space) throws, `"abc"` parses to `NaN` rather than 0,
and `calculateDuration("abc", "10:00")` propagates that `NaN` instead of
returning 1. -/
theorem C9_counterexample :
    TimeUtils.timeToDecimal "9:00AM" = .error ()
    ∧ TimeUtils.timeToDecimal "abc" = .ok none
    ∧ TimeUtils.timeToDecimal "abc" ≠ .ok (some 0)
    ∧ TimeUtils.calculateDuration "abc" "10:00" = none
    ∧ (none : Option ℚ) ≠ some 1 := by
  with_unfolding_all decide

/-- C9, amended.  `timeToDecimal` returns 0 on empty input; it throws on
a string carrying an `AM`/`PM` marker without a space-separated meridiem
word, and returns `NaN` (not 0) on non-numeric input.  `calculateDuration`
returns the difference `timeToDecimal(end) - timeToDecimal(start)`
rounded to 2 decimal places when both parses produce numbers, returns
the default 1 when `timeToDecimal` throws on either argument, and
propagates `NaN` otherwise. -/
theorem C9_amended :
    TimeUtils.timeToDecimal "" = .ok (some 0)
    ∧ (∀ s e : String, ∀ qs qe : ℚ,
        TimeUtils.timeToDecimal s = .ok (some qs) →
        TimeUtils.timeToDecimal e = .ok (some qe) →
        TimeUtils.calculateDuration s e = jsToFixed2 (some (qe - qs)))
    ∧ (∀ s e : String, TimeUtils.timeToDecimal s = .error () →
        TimeUtils.calculateDuration s e = some 1)
    ∧ (∀ s e : String, ∀ u : Option ℚ,
        TimeUtils.timeToDecimal s = .ok u →
        TimeUtils.timeToDecimal e = .error () →
        TimeUtils.calculateDuration s e = some 1)
    ∧ (∀ s e : String, ∀ u : Option ℚ,
        TimeUtils.timeToDecimal s = .ok none →
        TimeUtils.timeToDecimal e = .ok u →
        TimeUtils.calculateDuration s e = none) := by
  refine ⟨by with_unfolding_all decide, ?_, ?_, ?_, ?_⟩
  · intro s e qs qe hs he
    simp [TimeUtils.calculateDuration, hs, he, jsSub]
  · intro s e hs
    simp [TimeUtils.calculateDuration, hs]
  · intro s e u hs he
    simp [TimeUtils.calculateDuration, hs, he]
  · intro s e u hs he
    cases u <;> simp [TimeUtils.calculateDuration, hs, he, jsSub, jsToFixed2]

/-- Witness for C9 (amended): a clean parse (90 minutes rounds to 1.5)
and a throwing parse (default 1). -/
theorem C9_witness :
    TimeUtils.calculateDuration "9:00" "10:30" = some (3 / 2)
    ∧ TimeUtils.calculateDuration "9:00AM" "10:00" = some 1 := by
  constructor
  · have h := C9_amended.2.1 "9:00" "10:30" 9 (21 / 2)
      (by with_unfolding_all decide) (by with_unfolding_all decide)
    rw [h]
    with_unfolding_all decide
  · exact C9_amended.2.2.1 "9:00AM" "10:00" (by with_unfolding_all decide)

/-! ### Lemmas on the JavaScript string primitives, used for the
`timeToDecimal` contract -/

theorem listLeads_append (pat rest : List Char) :
    listLeads pat (pat ++ rest) = true := by
  induction pat with
  | nil => rfl
  | cons c ps ih => simp [listLeads, ih]

theorem containsSub_append_left (pat l2 : List Char)
    (h : containsSub pat l2 = true) :
    ∀ l1, containsSub pat (l1 ++ l2) = true := by
  intro l1
  induction l1 with
  | nil => simpa using h
  | cons c t ih => simp [containsSub, ih]

theorem containsSub_self (pat : List Char) : containsSub pat pat = true := by
  cases pat with
  | nil => rfl
  | cons c ps =>
    have h := listLeads_append (c :: ps) []
    rw [List.append_nil] at h
    simp [containsSub, h]

theorem containsSub_eq_false (a : Char) (ps l : List Char) (h : a ∉ l) :
    containsSub (a :: ps) l = false := by
  induction l with
  | nil => rfl
  | cons c rest ih =>
    have hne : ¬ a = c := by
      intro e
      exact h (by rw [e]; exact List.mem_cons_self _ _)
    simp [containsSub, listLeads, hne,
      ih (fun hm => h (List.mem_cons_of_mem _ hm))]

theorem digit_not_ws : ∀ c ∈ digitChars, jsIsWs c = false := by decide

theorem digit_toUpper_notAP :
    ∀ c ∈ digitChars, ¬ Char.toUpper c = 'A' ∧ ¬ Char.toUpper c = 'P' := by
  decide

theorem hasMeridiem_digits_colon (hl ml : List Char)
    (h1 : ∀ c ∈ hl, c ∈ digitChars) (h2 : ∀ c ∈ ml, c ∈ digitChars) :
    TimeUtils.hasMeridiem (hl ++ ':' :: ml) = false := by
  have key : ∀ a : Char, a = 'A' ∨ a = 'P' →
      a ∉ (hl ++ ':' :: ml).map Char.toUpper := by
    intro a ha hmem
    obtain ⟨c, hc, hup⟩ := List.mem_map.mp hmem
    rcases List.mem_append.mp hc with hc | hc
    · rcases ha with rfl | rfl
      · exact (digit_toUpper_notAP c (h1 c hc)).1 hup
      · exact (digit_toUpper_notAP c (h1 c hc)).2 hup
    · rcases List.mem_cons.mp hc with rfl | hc
      · rcases ha with rfl | rfl <;> exact absurd hup (by decide)
      · rcases ha with rfl | rfl
        · exact (digit_toUpper_notAP c (h2 c hc)).1 hup
        · exact (digit_toUpper_notAP c (h2 c hc)).2 hup
  unfold TimeUtils.hasMeridiem
  rw [containsSub_eq_false 'A' ['M'] _ (key 'A' (Or.inl rfl)),
    containsSub_eq_false 'P' ['M'] _ (key 'P' (Or.inr rfl))]
  rfl

theorem jsSplit_of_not_mem (sep : Char) (l : List Char) (h : sep ∉ l) :
    jsSplit sep l = [l] := by
  induction l with
  | nil => rfl
  | cons c rest ih =>
    have hne : ¬ c = sep := by
      intro e
      exact h (by rw [e]; exact List.mem_cons_self _ _)
    simp [jsSplit, hne, ih (fun hm => h (List.mem_cons_of_mem _ hm))]

theorem jsSplit_append (sep : Char) (l1 l2 : List Char) (h : sep ∉ l1) :
    jsSplit sep (l1 ++ sep :: l2) = l1 :: jsSplit sep l2 := by
  induction l1 with
  | nil => simp [jsSplit]
  | cons c t ih =>
    have hne : ¬ c = sep := by
      intro e
      exact h (by rw [e]; exact List.mem_cons_self _ _)
    have ih' := ih (fun hm => h (List.mem_cons_of_mem _ hm))
    simp [jsSplit, hne, ih']

theorem dropWhile_eq_self_of_head (p : Char → Bool) (l : List Char)
    (h : ∀ c, l.head? = some c → p c = false) : l.dropWhile p = l := by
  cases l with
  | nil => rfl
  | cons c rest => simp [List.dropWhile_cons, h c rfl]

theorem jsTrim_eq_self_of_ends (l : List Char)
    (h1 : ∀ c, l.head? = some c → jsIsWs c = false)
    (h2 : ∀ c, l.getLast? = some c → jsIsWs c = false) :
    jsTrim l = l := by
  unfold jsTrim
  rw [dropWhile_eq_self_of_head _ _ h1]
  rw [dropWhile_eq_self_of_head _ _
    (fun c hc => h2 c (by rwa [List.head?_reverse] at hc))]
  exact List.reverse_reverse l

theorem mem_of_head?_eq (l : List Char) (c : Char) (h : l.head? = some c) :
    c ∈ l := by
  cases l with
  | nil => simp at h
  | cons a t =>
    simp only [List.head?_cons, Option.some.injEq] at h
    rw [← h]
    exact List.mem_cons_self _ _

theorem jsTrim_eq_self_of_all (l : List Char)
    (h : ∀ c ∈ l, jsIsWs c = false) : jsTrim l = l := by
  apply jsTrim_eq_self_of_ends
  · intro c hc
    exact h c (mem_of_head?_eq l c hc)
  · intro c hc
    have hr : l.reverse.head? = some c := by rw [List.head?_reverse]; exact hc
    exact h c (List.mem_reverse.mp (mem_of_head?_eq _ c hr))

theorem jsNumber_digits (l : List Char) (h : ∀ c ∈ l, c ∈ digitChars) :
    jsNumber l = some ((digitsToNat l : ℚ)) := by
  unfold jsNumber
  rw [jsTrim_eq_self_of_all l (fun c hc => digit_not_ws c (h c hc))]
  cases l with
  | nil => simp [digitsToNat]
  | cons c rest =>
    rw [if_neg (by simp)]
    rw [if_pos (List.all_eq_true.mpr fun x hx => by simpa using h x hx)]

theorem timeToDecimalAux_24h (hl ml : List Char)
    (h1 : ∀ c ∈ hl, c ∈ digitChars) (h2 : ∀ c ∈ ml, c ∈ digitChars) :
    TimeUtils.timeToDecimalAux (hl ++ ':' :: ml) =
      .ok (some ((digitsToNat hl : ℚ) + (digitsToNat ml : ℚ) / 60)) := by
  have hempty : (hl ++ ':' :: ml).isEmpty = false := by cases hl <;> rfl
  have hmer := hasMeridiem_digits_colon hl ml h1 h2
  have hsplit : jsSplit ':' (hl ++ ':' :: ml) = [hl, ml] := by
    rw [jsSplit_append ':' hl ml (fun hc => absurd (h1 _ hc) (by decide)),
      jsSplit_of_not_mem ':' ml (fun hc => absurd (h2 _ hc) (by decide))]
  unfold TimeUtils.timeToDecimalAux
  simp only [hempty, Bool.false_eq_true, if_false, hmer, Bool.not_false, if_true,
    hsplit, List.map_cons, List.map_nil, jsNumber_digits hl h1,
    jsNumber_digits ml h2, List.headD_cons, TimeUtils.minutesOrZero,
    TimeUtils.hoursPlusMinutes]
  rfl

theorem timeToDecimalAux_pm (hl ml : List Char)
    (h1 : ∀ c ∈ hl, c ∈ digitChars) (h2 : ∀ c ∈ ml, c ∈ digitChars)
    (h12 : digitsToNat hl ≠ 12) :
    TimeUtils.timeToDecimalAux (hl ++ ':' :: (ml ++ [' ', 'P', 'M'])) =
      .ok (some ((digitsToNat hl : ℚ) + 12 + (digitsToNat ml : ℚ) / 60)) := by
  have hempty : (hl ++ ':' :: (ml ++ [' ', 'P', 'M'])).isEmpty = false := by
    cases hl <;> rfl
  have hmer : TimeUtils.hasMeridiem (hl ++ ':' :: (ml ++ [' ', 'P', 'M'])) = true := by
    unfold TimeUtils.hasMeridiem
    have hsh : hl ++ ':' :: (ml ++ [' ', 'P', 'M']) =
        (hl ++ ':' :: ml ++ [' ']) ++ ['P', 'M'] := by simp
    rw [hsh, List.map_append]
    rw [Bool.or_eq_true]
    right
    have hPM : List.map Char.toUpper ['P', 'M'] = ['P', 'M'] := by decide
    rw [hPM]
    exact containsSub_append_left _ _ (containsSub_self ['P', 'M']) _
  have htrim : jsTrim (hl ++ ':' :: (ml ++ [' ', 'P', 'M'])) =
      hl ++ ':' :: (ml ++ [' ', 'P', 'M']) := by
    apply jsTrim_eq_self_of_ends
    · intro c hc
      cases hl with
      | nil =>
        simp only [List.nil_append, List.head?_cons, Option.some.injEq] at hc
        rw [← hc]; rfl
      | cons a t =>
        simp only [List.cons_append, List.head?_cons, Option.some.injEq] at hc
        rw [← hc]
        exact digit_not_ws a (h1 a (List.mem_cons_self _ _))
    · intro c hc
      have hsh : hl ++ ':' :: (ml ++ [' ', 'P', 'M']) =
          (hl ++ ':' :: ml ++ [' ', 'P']) ++ ['M'] := by simp
      rw [hsh, List.getLast?_concat] at hc
      simp only [Option.some.injEq] at hc
      rw [← hc]; rfl
  have hnospace : ' ' ∉ hl ++ ':' :: ml := by
    intro hm
    rcases List.mem_append.mp hm with hm | hm
    · exact absurd (h1 _ hm) (by decide)
    · rcases List.mem_cons.mp hm with he | hm
      · exact absurd he (by decide)
      · exact absurd (h2 _ hm) (by decide)
  have hsp : jsSplit ' ' (hl ++ ':' :: (ml ++ [' ', 'P', 'M'])) =
      [hl ++ ':' :: ml, ['P', 'M']] := by
    have hsh : hl ++ ':' :: (ml ++ [' ', 'P', 'M']) =
        (hl ++ ':' :: ml) ++ ' ' :: ['P', 'M'] := by simp
    rw [hsh, jsSplit_append ' ' _ _ hnospace,
      jsSplit_of_not_mem ' ' ['P', 'M'] (by decide)]
  have hsplitTime : jsSplit ':' (hl ++ ':' :: ml) = [hl, ml] := by
    rw [jsSplit_append ':' hl ml (fun hc => absurd (h1 _ hc) (by decide)),
      jsSplit_of_not_mem ':' ml (fun hc => absurd (h2 _ hc) (by decide))]
  have hd12 : (decide (some ((digitsToNat hl : ℚ)) = some (12 : ℚ))) = false := by
    apply decide_eq_false
    simp only [Option.some.injEq]
    intro h
    exact h12 (by exact_mod_cast h)
  have hPMup : List.map Char.toUpper ['P', 'M'] = ['P', 'M'] := by decide
  have hPMeqPM : (decide ((['P', 'M'] : List Char) = ['P', 'M'])) = true := by decide
  have hPMneAM : (decide ((['P', 'M'] : List Char) = ['A', 'M'])) = false := by decide
  unfold TimeUtils.timeToDecimalAux
  simp only [hempty, Bool.false_eq_true, if_false, hmer, Bool.not_true, htrim, hsp,
    List.get?_cons_succ, List.get?_cons_zero, List.headD_cons, hsplitTime,
    List.map_cons, List.map_nil, jsNumber_digits hl h1, jsNumber_digits ml h2,
    hPMup, hPMeqPM, hPMneAM, hd12, Bool.not_false, Bool.true_and, Bool.false_and,
    Bool.and_true, Bool.and_false, if_true, jsAdd, TimeUtils.minutesOrZero,
    TimeUtils.hoursPlusMinutes]
  rfl

/-- C10.  The `timeToDecimal` 12-hour contract: `"12:00 PM"` maps to 12,
`"12:00 AM"` maps to 0, any `PM` time whose hour is not 12 has 12 added
to its hour, any 24-hour `H:MM` digits string is read verbatim as
`hours + minutes/60`, and the empty string maps to 0.  The universal
parts quantify over arbitrary digit strings for the hour and minute
fields. -/
theorem C10_timeToDecimal_contract :
    TimeUtils.timeToDecimal "" = .ok (some 0)
    ∧ TimeUtils.timeToDecimal "12:00 PM" = .ok (some 12)
    ∧ TimeUtils.timeToDecimal "12:00 AM" = .ok (some 0)
    ∧ (∀ hl ml : List Char, (∀ c ∈ hl, c ∈ digitChars) →
        (∀ c ∈ ml, c ∈ digitChars) → digitsToNat hl ≠ 12 →
        TimeUtils.timeToDecimal
            (String.mk (hl ++ ':' :: (ml ++ [' ', 'P', 'M']))) =
          .ok (some ((digitsToNat hl : ℚ) + 12 + (digitsToNat ml : ℚ) / 60)))
    ∧ (∀ hl ml : List Char, (∀ c ∈ hl, c ∈ digitChars) →
        (∀ c ∈ ml, c ∈ digitChars) →
        TimeUtils.timeToDecimal (String.mk (hl ++ ':' :: ml)) =
          .ok (some ((digitsToNat hl : ℚ) + (digitsToNat ml : ℚ) / 60))) := by
  refine ⟨by with_unfolding_all decide, by with_unfolding_all decide,
    by with_unfolding_all decide, ?_, ?_⟩
  · intro hl ml h1 h2 h12
    exact timeToDecimalAux_pm hl ml h1 h2 h12
  · intro hl ml h1 h2
    exact timeToDecimalAux_24h hl ml h1 h2

/-- Witness for C10: `"13:30"` reads as 13.5 and `"1:30 PM"` reads as
13.5, through the two universal conjuncts. -/
theorem C10_witness :
    TimeUtils.timeToDecimal (String.mk (['1', '3'] ++ ':' :: ['3', '0'])) =
      .ok (some (27 / 2))
    ∧ TimeUtils.timeToDecimal
        (String.mk (['1'] ++ ':' :: (['3', '0'] ++ [' ', 'P', 'M']))) =
      .ok (some (27 / 2)) := by
  constructor
  · have h := C10_timeToDecimal_contract.2.2.2.2 ['1', '3'] ['3', '0']
      (by decide) (by decide)
    rw [h]
    with_unfolding_all decide
  · have h := C10_timeToDecimal_contract.2.2.2.1 ['1'] ['3', '0']
      (by decide) (by decide) (by decide)
    rw [h]
    with_unfolding_all decide

